import Mathlib

/-!
Verification of the mutant-discovery engine of `cargo-mutants` (`src/visit.rs`):
a shallow embedding of the syntax-tree walk that finds mutation sites, together
with proofs about op selection, exclusion rules, naming, the namespace-stack
discipline, and the type-signature normalizer.
-/

set_option maxHeartbeats 1000000

namespace CargoMutants

/-! ## Basic syntax-tree data model (the fragment of `syn` the visitor consumes) -/

/-- A source span, as captured from a function body's brace token
(`i.block.brace_token.span`): a line/column position pair. -/
structure Span where
  line : Nat
  col : Nat
deriving Repr, DecidableEq

/-- One segment of a `syn::Path`: its identifier and whether it carries
path arguments (e.g. the `<(), ()>` of `Result<(), ()>`).  `is_ident`
requires the arguments to be absent. -/
structure PathSegment where
  ident : String
  hasArgs : Bool
deriving Repr, DecidableEq

/-- A `syn::Path`: an optional leading `::` and a sequence of segments. -/
structure Path where
  leadingColon : Bool
  segments : List PathSegment
deriving Repr, DecidableEq

/-- Source `syn::Path::is_ident`: no leading colon, exactly one segment, that segment
has no arguments and its identifier is `name`. -/
def Path.is_ident (p : Path) (name : String) : Bool :=
  !p.leadingColon &&
    match p.segments with
    | [seg] => !seg.hasArgs && seg.ident == name
    | _ => false

/-- A `syn::Type` as consumed by the visitor: either a path type (with its
`to_token_stream().to_string()` rendering) or any other shape of type
(tuple, reference, slice, ...), of which only the token rendering matters. -/
inductive Typ where
  | path (p : Path) (rendered : String)
  | other (rendered : String)
deriving Repr, DecidableEq

/-- Source `syn::ReturnType`: `Default` for no `->` clause, or an arrow and a type. -/
inductive ReturnType where
  | default
  | typ (t : Typ)
deriving Repr, DecidableEq

/-- The parsed meta of an attribute (`attr.parse_meta()`), reduced to the part
`attr_is_cfg_test` inspects: a nested item of a `Meta::List` is either a
`NestedMeta::Meta(Meta::Path(..))` or something else. -/
inductive NestedMeta where
  | metaPath (path : Path)
  | otherNested
deriving Repr, DecidableEq

/-- The outcome of `attr.parse_meta()` on an attribute's tokens.  `Meta::List`'s
own path always coincides with the attribute's path (both come from the same
tokens), so it is not repeated here.  `otherMeta` is a successful parse of
another shape (`Meta::Path`, `Meta::NameValue`); `malformed` is a failed
parse: syn accepts arbitrary token trees inside an attribute at file-parse
time (e.g. `#[cfg(foo bar)]`), and `parse_meta()` on such tokens returns
`Err`, so a syntactically valid file can carry a `malformed` meta. -/
inductive AttrMeta where
  | list (nested : List NestedMeta)
  | otherMeta
  | malformed
deriving Repr, DecidableEq

/-- A `syn::Attribute`: its path and its parsed meta. -/
structure Attribute where
  path : Path
  meta : AttrMeta
deriving Repr, DecidableEq

/-! ## The type-signature normalizer (`remove_excess_spaces`) -/

/-- The deletion condition of the `while` loop in `remove_excess_spaces`,
on the characters `a` before and `b` after a space: exactly the eight
disjuncts of the source, in source order. -/
def del_cond (a b : Char) : Bool :=
  a == ':' || b == ':' || b == ',' || a == '&' || a == '<' || b == '<' || a == '>' || b == '>'

/-- Direct translation of the index-walking `while` loop of
`remove_excess_spaces` (visit.rs lines 190-212): starting from `i = 1`, while
`i + 1 < c.len()`, a space at `i` whose neighbours satisfy the deletion
condition is removed (re-examining the same `i`), otherwise `i` advances.
Out-of-range `getD` defaults are never consulted: the loop guard keeps every
index in range. -/
def remove_excess_spaces_loop (c : List Char) (i : Nat) : List Char :=
  if h : i + 1 < c.length then
    if c.getD i ' ' = ' ' then
      if del_cond (c.getD (i - 1) ' ') (c.getD (i + 1) ' ') then
        remove_excess_spaces_loop (c.eraseIdx i) i
      else
        remove_excess_spaces_loop c (i + 1)
    else
      remove_excess_spaces_loop c (i + 1)
  else c
termination_by c.length - i
decreasing_by
  · have hlt : i < c.length := by omega
    have := List.length_eraseIdx_of_lt hlt
    omega
  · omega
  · omega

/-- Zipper formulation of the same loop, structurally recursive (hence
computable by the kernel): `done_rev` holds the characters before index `i`
in reverse, the second argument the characters from `i` on.  The loop guard
`i + 1 < len` is the pattern `cur :: next :: rest`; deleting keeps `done_rev`
(re-examining the same index), keeping advances `cur` into `done_rev`.
`res_zip_eq_loop` below proves it equal to the index-walking translation. -/
def res_zip : List Char → List Char → List Char
  | done_rev, cur :: next :: rest =>
    if cur = ' ' && del_cond (done_rev.headD ' ') next then
      res_zip done_rev (next :: rest)
    else
      res_zip (cur :: done_rev) (next :: rest)
  | done_rev, rem => done_rev.reverse ++ rem

/-- Source `remove_excess_spaces`: collect the chars, run the loop from `i = 1`,
and rebuild the string. -/
def remove_excess_spaces (type_str : String) : String :=
  match type_str.data with
  | [] => ⟨[]⟩
  | c0 :: rest => ⟨res_zip [c0] rest⟩

/-! ## Mutation ops and op selection -/

/-- Source `MutationOp`: what to substitute for a function body. `configuredError`
does not occur in `src/visit.rs`; it models the spec's configured
error-expression feature (see `ops_for_return_type_with_error`). -/
inductive MutationOp where
  | unit
  | true_
  | false_
  | emptyString
  | xyzzy
  | default_
  | okDefault
  | configuredError (expr : String)
deriving Repr, DecidableEq

/-- Source `path_is_result`: the last path segment's identifier is `Result`. -/
def path_is_result (p : Path) : Bool :=
  (p.segments.getLast?.map (fun segment => segment.ident == ("Result" : String))).getD false

/-- Source `ops_for_return_type` (visit.rs lines 134-160): select mutation ops from
the syntactic shape of the declared return type. -/
def ops_for_return_type (return_type : ReturnType) : List MutationOp :=
  match return_type with
  | .default => [.unit]
  | .typ t =>
    match t with
    | .path p _rendered =>
      if p.is_ident ("bool") then [.true_, .false_]
      else if p.is_ident ("String") then [.emptyString, .xyzzy]
      else if path_is_result p then [.okDefault]
      else [.default_]
    | .other _rendered => [.default_]

/-- Modelled from the spec: the configured-error feature (§4.1, op-selection
policy for `Result`-path returns: `[OkDefault]`, "plus `[ConfiguredError(expr)]`
appended when an error-value expression was supplied to the run").  The
discovery code under `src/` (`src/visit.rs`) takes no configuration and never
produces a `ConfiguredError` op; only the feature's CLI tests
(`tests/cli/error_value.rs`) are in the repository, so the op selection in the
presence of a configured error expression is modelled here from the spec's
words, on top of the source's `ops_for_return_type`. -/
def ops_for_return_type_with_error (error_expr : Option String) (return_type : ReturnType) :
    List MutationOp :=
  match return_type with
  | .default => [.unit]
  | .typ t =>
    match t with
    | .path p _rendered =>
      if p.is_ident ("bool") then [.true_, .false_]
      else if p.is_ident ("String") then [.emptyString, .xyzzy]
      else if path_is_result p then
        [.okDefault] ++ (match error_expr with
          | some e => [.configuredError e]
          | none => [])
      else [.default_]
    | .other _rendered => [.default_]

/-! ## Attribute exclusion predicates -/

/-- Source `attr_is_cfg_test`: the attribute is `#[cfg(..., test, ...)]` — its path is
the single identifier `cfg` and its parsed meta list contains a nested path
that is the single identifier `test`.  CAUTION: this is a total approximation.
The source calls `attr.parse_meta().unwrap()` once the path is `cfg`, which
panics when the tokens are not meta-parseable; this version treats that case
as `false`.  The faithful translation is `attr_is_cfg_test_checked` below,
which propagates the panic; the two agree on every attribute whose `cfg`
tokens meta-parse (`attr_is_cfg_test_checked_eq`). -/
def attr_is_cfg_test (attr : Attribute) : Bool :=
  if !(attr.path.is_ident ("cfg")) then false
  else
    match attr.meta with
    | .list nested =>
      nested.any (fun nm =>
        match nm with
        | .metaPath cfg_path => cfg_path.is_ident ("test")
        | .otherNested => false)
    | .otherMeta => false
    | .malformed => false

/-- Faithful translation of `attr_is_cfg_test` (visit.rs lines 236-252): when
the path is `cfg`, `attr.parse_meta().unwrap()` panics (modelled as `.error`)
if the attribute's tokens do not parse as a meta. -/
def attr_is_cfg_test_checked (attr : Attribute) : Except String Bool :=
  if !(attr.path.is_ident ("cfg")) then .ok false
  else
    match attr.meta with
    | .list nested =>
      .ok (nested.any (fun nm =>
        match nm with
        | .metaPath cfg_path => cfg_path.is_ident ("test")
        | .otherNested => false))
    | .otherMeta => .ok false
    | .malformed =>
      .error ("attr_is_cfg_test: called unwrap on an Err value: attribute tokens do not parse as a meta")

/-- Source `attr_is_test`: the attribute is `#[test]`. -/
def attr_is_test (attr : Attribute) : Bool :=
  attr.path.is_ident ("test")

/-- Source `attr_is_mutants_skip`: the attribute is `#[mutants::skip]` — the path's
segment identifiers are exactly `mutants`, `skip`. -/
def attr_is_mutants_skip (attr : Attribute) : Bool :=
  attr.path.segments.map (fun ps => ps.ident) == [("mutants" : String), ("skip")]

/-- Source `attrs_excluded`: some attribute indicates the node and everything inside
it should be skipped.  Total approximation, like `attr_is_cfg_test`; the
faithful translation is `attrs_excluded_checked` below. -/
def attrs_excluded (attrs : List Attribute) : Bool :=
  attrs.any (fun attr => attr_is_cfg_test attr || attr_is_test attr || attr_is_mutants_skip attr)

/-- Faithful translation of `attrs_excluded`: `Iterator::any` examines the
attributes in order and short-circuits at the first excluding one, and
`attr_is_cfg_test` is evaluated first within each disjunction, so its panic
propagates from the first attribute reached whose `cfg` tokens do not
meta-parse. -/
def attrs_excluded_checked : List Attribute → Except String Bool
  | [] => .ok false
  | attr :: rest =>
    match attr_is_cfg_test_checked attr with
    | .error e => .error e
    | .ok c =>
      if c || attr_is_test attr || attr_is_mutants_skip attr then .ok true
      else attrs_excluded_checked rest

/-- An attribute on which `attr_is_cfg_test` cannot panic: either its path is
not `cfg`, or its tokens meta-parse. -/
def attr_cfg_meta_ok (attr : Attribute) : Bool :=
  !(attr.path.is_ident ("cfg")) ||
    (match attr.meta with
     | .malformed => false
     | _ => true)

/-! ## The syntax tree walked by the visitor

The item family is a mutual inductive (with its own list types, so that all
recursion below is plain structural mutual recursion): files and module bodies
hold items; function and method bodies hold statements, which can hold items
again (`syn`'s `Stmt::Item`), which is how functions nest inside functions. -/

mutual
inductive Item where
  | fn (f : ItemFn)
  | impl_ (i : ItemImpl)
  | mod_ (m : ItemMod)

/-- A free `fn` item: attributes, identifier, number of signature inputs,
declared return type, body block. -/
inductive ItemFn where
  | mk (attrs : List Attribute) (ident : String) (arity : Nat) (output : ReturnType)
      (block : Block)

/-- A function body: the span of its brace token and its statements. -/
inductive Block where
  | mk (span : Span) (stmts : StmtList)

inductive StmtList where
  | nil
  | cons (head : Stmt) (tail : StmtList)

/-- A statement: an item statement (the only kind the visitor can find more
functions under) or any other statement. -/
inductive Stmt where
  | item (i : Item)
  | otherStmt

/-- An `impl` block: attributes, the implemented-on type, the trait path when
this is `impl Trait for Type`, and the impl items. -/
inductive ItemImpl where
  | mk (attrs : List Attribute) (selfTy : Typ) (traitPath : Option Path) (items : ImplItemList)

inductive ImplItemList where
  | nil
  | cons (head : ImplItem) (tail : ImplItemList)

/-- An impl item: a method (attributes, identifier, number of signature inputs,
return type, body) or any other impl item (consts, associated types, ...). -/
inductive ImplItem where
  | method (attrs : List Attribute) (ident : String) (arity : Nat) (output : ReturnType)
      (block : Block)
  | otherImplItem

/-- A `mod` item: attributes, identifier, and its content; `mod m;` without an
inline body has no content and nothing to visit. -/
inductive ItemMod where
  | mk (attrs : List Attribute) (ident : String) (content : ModContent)

inductive ModContent where
  | noBody
  | body (items : ItemList)

inductive ItemList where
  | nil
  | cons (head : Item) (tail : ItemList)
end

/-- A parsed source file is its list of items. -/
abbrev File := ItemList

/-- Appending item lists (used to state that removing an excluded item from a
file does not change the walk). -/
def ItemList.append : ItemList → ItemList → ItemList
  | .nil, ys => ys
  | .cons x xs, ys => .cons x (xs.append ys)

def Item.attrs : Item → List Attribute
  | .fn (.mk attrs _ _ _ _) => attrs
  | .impl_ (.mk attrs _ _ _) => attrs
  | .mod_ (.mk attrs _ _) => attrs

def Block.span : Block → Span
  | .mk sp _ => sp

/-- Source `block_is_empty`: the block has no statements. -/
def block_is_empty : Block → Bool
  | .mk _ .nil => true
  | .mk _ (.cons _ _) => false

/-- A `SourceFile`: its path and its text.  The text is represented through
the external parser's lens (`syn::parse_str::<syn::File>`): syntactically valid
text is `.ok` its syntax tree, invalid text is `.error` its parse diagnostic. -/
structure SourceFile where
  path : String
  code : Except String File

/-- Source `type_name_string`: render a type to its token string. -/
def type_name_string : Typ → String
  | .path _ rendered => rendered
  | .other rendered => rendered

/-- Source `return_type_to_string`: empty for no declared return type, otherwise the
arrow token, a space, and the normalized rendering of the type. -/
def return_type_to_string : ReturnType → String
  | .default => ⟨[]⟩
  | .typ t => ("-> ") ++ remove_excess_spaces (type_name_string t)

/-- A discovered `Mutant`: its owning source file, its op, the fully-qualified
name of its function, the function's rendered return type, and the span of the
function's body. -/
structure Mutant where
  source_file : SourceFile
  op : MutationOp
  function_name : String
  return_type_str : String
  span : Span

/-- The `DiscoveryVisitor` state: mutants accumulated so far, the file being
visited, and the stack of namespaces currently inside (innermost first; the
source's `Vec` pushes at the other end, so joining reverses). -/
structure State where
  mutants : List Mutant
  source_file : SourceFile
  namespaceStack : List String

/-- Source `collect_fn_mutants`: join the namespace stack into the fully-qualified
function name, render the return type, and append one mutant per selected op. -/
def collect_fn_mutants (return_type : ReturnType) (span : Span) (s : State) : State :=
  let full_function_name := String.intercalate ("::") s.namespaceStack.reverse
  let return_type_str := return_type_to_string return_type
  { s with
    mutants := s.mutants ++ (ops_for_return_type return_type).map (fun op =>
      { source_file := s.source_file
        op := op
        function_name := full_function_name
        return_type_str := return_type_str
        span := span }) }

/-- Push a namespace segment (entry half of `in_namespace`). -/
def pushNs (name : String) (s : State) : State :=
  { s with namespaceStack := name :: s.namespaceStack }

/-- Exit half of `in_namespace`: pop the stack and, as the source's
`assert_eq!(self.namespace_stack.pop().unwrap(), name)`, abort the discovery
call (modelled as `.error`) if the stack is empty or the popped segment is not
the one pushed. -/
def popCheck (name : String) (r : Except String State) : Except String State :=
  match r with
  | .error e => .error e
  | .ok s =>
    match s.namespaceStack with
    | [] => .error ("in_namespace: called unwrap on an empty namespace stack")
    | top :: rest =>
      if top = name then .ok { s with namespaceStack := rest }
      else .error ("in_namespace: assertion failed, popped segment differs from pushed")

/-! The visitor itself.  Each function mirrors one `Visit` method of
`DiscoveryVisitor` (or the default `syn::visit` traversal it delegates to);
`popCheck name (… (pushNs name s))` is `in_namespace(name, …)`. -/

mutual
def visitItems : ItemList → State → Except String State
  | .nil, s => .ok s
  | .cons i rest, s =>
    match visitItem i s with
    | .error e => .error e
    | .ok s1 => visitItems rest s1

def visitItem : Item → State → Except String State
  | .fn f, s => visitItemFn f s
  | .impl_ i, s => visitItemImpl i s
  | .mod_ m, s => visitItemMod m s

/-- Source `visit_item_fn`: skip (together with everything inside) when the
attributes exclude it or the body is empty; otherwise collect mutants for the
signature and descend into the body, inside the function's namespace. -/
def visitItemFn : ItemFn → State → Except String State
  | .mk attrs ident _arity output (.mk sp stmts), s =>
    if attrs_excluded attrs || block_is_empty (.mk sp stmts) then .ok s
    else
      let function_name := remove_excess_spaces ident
      popCheck function_name
        (visitStmts stmts (collect_fn_mutants output sp (pushNs function_name s)))

/-- Source `visit_impl_item_method`: as `visit_item_fn`, and also skip constructors
(methods named `new`). -/
def visitImplItemMethod :
    List Attribute → String → Nat → ReturnType → Block → State → Except String State
  | attrs, ident, _arity, output, .mk sp stmts, s =>
    if attrs_excluded attrs || ident == ("new" : String) || block_is_empty (.mk sp stmts) then
      .ok s
    else
      let function_name := remove_excess_spaces ident
      popCheck function_name
        (visitStmts stmts (collect_fn_mutants output sp (pushNs function_name s)))

/-- Source `visit_item_impl`: skip excluded impls and `impl Default for …`;
otherwise visit the impl items inside the synthesized namespace segment —
`<impl Trait for Type>` for a trait impl, the bare rendered type otherwise. -/
def visitItemImpl : ItemImpl → State → Except String State
  | .mk attrs selfTy traitPath items, s =>
    if attrs_excluded attrs then .ok s
    else
      let type_name := type_name_string selfTy
      match traitPath with
      | some trait_path =>
        let trait_name := (trait_path.segments.getLastD ⟨⟨[]⟩, false⟩).ident
        if trait_name == ("Default" : String) then .ok s
        else
          let name :=
            ("<impl ") ++ trait_name ++ (" for ") ++ remove_excess_spaces type_name ++ (">")
          popCheck name (visitImplItems items (pushNs name s))
      | none => popCheck type_name (visitImplItems items (pushNs type_name s))

/-- Source `visit_item_mod`: skip excluded modules; otherwise visit the content (if
any) inside the module's namespace. -/
def visitItemMod : ItemMod → State → Except String State
  | .mk attrs ident content, s =>
    if attrs_excluded attrs then
      .ok s
    else
      popCheck ident (visitModContent content (pushNs ident s))

def visitModContent : ModContent → State → Except String State
  | .noBody, s => .ok s
  | .body items, s => visitItems items s

def visitImplItems : ImplItemList → State → Except String State
  | .nil, s => .ok s
  | .cons i rest, s =>
    match visitImplItem i s with
    | .error e => .error e
    | .ok s1 => visitImplItems rest s1

def visitImplItem : ImplItem → State → Except String State
  | .method attrs ident arity output block, s => visitImplItemMethod attrs ident arity output block s
  | .otherImplItem, s => .ok s

def visitStmts : StmtList → State → Except String State
  | .nil, s => .ok s
  | .cons st rest, s =>
    match visitStmt st s with
    | .error e => .error e
    | .ok s1 => visitStmts rest s1

def visitStmt : Stmt → State → Except String State
  | .item i, s => visitItem i s
  | .otherStmt, s => .ok s
end

/-- The outcome of `discover_mutants`: a parse error (the `?` on
`syn::parse_str`), an aborted call (a panic from the namespace-stack
assertion), or the discovered mutants. -/
inductive DiscoveryOutcome where
  | parseError (e : String)
  | aborted (e : String)
  | found (mutants : List Mutant)

/-- Source `discover_mutants`: parse the file (propagating a parse error), then run
the visitor from an empty mutant list and empty namespace stack and return the
accumulated mutants. -/
def discover_mutants (source_file : SourceFile) : DiscoveryOutcome :=
  match source_file.code with
  | .error e => .parseError e
  | .ok syn_file =>
    match visitItems syn_file
        { mutants := [], source_file := source_file, namespaceStack := [] } with
    | .error e => .aborted e
    | .ok visitor => .found visitor.mutants

/-! ## The faithful (panic-propagating) walk

The visitors above use the total `attrs_excluded`.  The source's
`attr_is_cfg_test`, however, can panic (`attr.parse_meta().unwrap()`) on a
`cfg` attribute whose tokens do not meta-parse, which syn accepts in a
syntactically valid file.  The `…Checked` visitors below are the faithful
translation: they run `attrs_excluded_checked` exactly where the source runs
`attrs_excluded` and propagate its panic; everything else is identical.  On
trees whose `cfg` attributes all meta-parse the two walks provably agree
(`visitItemsChecked_eq`). -/

mutual
def visitItemsChecked : ItemList → State → Except String State
  | .nil, s => .ok s
  | .cons i rest, s =>
    match visitItemChecked i s with
    | .error e => .error e
    | .ok s1 => visitItemsChecked rest s1

def visitItemChecked : Item → State → Except String State
  | .fn f, s => visitItemFnChecked f s
  | .impl_ i, s => visitItemImplChecked i s
  | .mod_ m, s => visitItemModChecked m s

def visitItemFnChecked : ItemFn → State → Except String State
  | .mk attrs ident _arity output (.mk sp stmts), s =>
    match attrs_excluded_checked attrs with
    | .error e => .error e
    | .ok ex =>
      if ex || block_is_empty (.mk sp stmts) then .ok s
      else
        let function_name := remove_excess_spaces ident
        popCheck function_name
          (visitStmtsChecked stmts (collect_fn_mutants output sp (pushNs function_name s)))

def visitImplItemMethodChecked :
    List Attribute → String → Nat → ReturnType → Block → State → Except String State
  | attrs, ident, _arity, output, .mk sp stmts, s =>
    match attrs_excluded_checked attrs with
    | .error e => .error e
    | .ok ex =>
      if ex || ident == ("new" : String) || block_is_empty (.mk sp stmts) then .ok s
      else
        let function_name := remove_excess_spaces ident
        popCheck function_name
          (visitStmtsChecked stmts (collect_fn_mutants output sp (pushNs function_name s)))

def visitItemImplChecked : ItemImpl → State → Except String State
  | .mk attrs selfTy traitPath items, s =>
    match attrs_excluded_checked attrs with
    | .error e => .error e
    | .ok ex =>
      if ex then .ok s
      else
        let type_name := type_name_string selfTy
        match traitPath with
        | some trait_path =>
          let trait_name := (trait_path.segments.getLastD ⟨⟨[]⟩, false⟩).ident
          if trait_name == ("Default" : String) then .ok s
          else
            let name :=
              ("<impl ") ++ trait_name ++ (" for ") ++ remove_excess_spaces type_name ++ (">")
            popCheck name (visitImplItemsChecked items (pushNs name s))
        | none => popCheck type_name (visitImplItemsChecked items (pushNs type_name s))

def visitItemModChecked : ItemMod → State → Except String State
  | .mk attrs ident content, s =>
    match attrs_excluded_checked attrs with
    | .error e => .error e
    | .ok ex =>
      if ex then .ok s
      else popCheck ident (visitModContentChecked content (pushNs ident s))

def visitModContentChecked : ModContent → State → Except String State
  | .noBody, s => .ok s
  | .body items, s => visitItemsChecked items s

def visitImplItemsChecked : ImplItemList → State → Except String State
  | .nil, s => .ok s
  | .cons i rest, s =>
    match visitImplItemChecked i s with
    | .error e => .error e
    | .ok s1 => visitImplItemsChecked rest s1

def visitImplItemChecked : ImplItem → State → Except String State
  | .method attrs ident arity output block, s =>
    visitImplItemMethodChecked attrs ident arity output block s
  | .otherImplItem, s => .ok s

def visitStmtsChecked : StmtList → State → Except String State
  | .nil, s => .ok s
  | .cons st rest, s =>
    match visitStmtChecked st s with
    | .error e => .error e
    | .ok s1 => visitStmtsChecked rest s1

def visitStmtChecked : Stmt → State → Except String State
  | .item i, s => visitItemChecked i s
  | .otherStmt, s => .ok s
end

/-- Faithful version of `discover_mutants`: runs the panic-propagating walk,
so the `parse_meta().unwrap()` panic surfaces as `.aborted`. -/
def discover_mutants_checked (source_file : SourceFile) : DiscoveryOutcome :=
  match source_file.code with
  | .error e => .parseError e
  | .ok syn_file =>
    match visitItemsChecked syn_file
        { mutants := [], source_file := source_file, namespaceStack := [] } with
    | .error e => .aborted e
    | .ok visitor => .found visitor.mutants

/-! Wellformedness of the attribute metas in a tree: every attribute, at any
depth, is one `attr_is_cfg_test` cannot panic on. -/

mutual
def itemsMetasOk : ItemList → Bool
  | .nil => true
  | .cons i rest => itemMetasOk i && itemsMetasOk rest

def itemMetasOk : Item → Bool
  | .fn f => itemFnMetasOk f
  | .impl_ im => itemImplMetasOk im
  | .mod_ m => itemModMetasOk m

def itemFnMetasOk : ItemFn → Bool
  | .mk attrs _ _ _ (.mk _ stmts) => attrs.all attr_cfg_meta_ok && stmtsMetasOk stmts

def stmtsMetasOk : StmtList → Bool
  | .nil => true
  | .cons st rest => stmtMetasOk st && stmtsMetasOk rest

def stmtMetasOk : Stmt → Bool
  | .item i => itemMetasOk i
  | .otherStmt => true

def itemImplMetasOk : ItemImpl → Bool
  | .mk attrs _ _ items => attrs.all attr_cfg_meta_ok && implItemsMetasOk items

def implItemsMetasOk : ImplItemList → Bool
  | .nil => true
  | .cons i rest => implItemMetasOk i && implItemsMetasOk rest

def implItemMetasOk : ImplItem → Bool
  | .method attrs _ _ _ (.mk _ stmts) => attrs.all attr_cfg_meta_ok && stmtsMetasOk stmts
  | .otherImplItem => true

def itemModMetasOk : ItemMod → Bool
  | .mk attrs _ content => attrs.all attr_cfg_meta_ok && modContentMetasOk content

def modContentMetasOk : ModContent → Bool
  | .noBody => true
  | .body items => itemsMetasOk items
end

/-- Meta-wellformedness of a block's statements. -/
def blockStmtsOkOf : Block → Bool
  | .mk _ stmts => stmtsMetasOk stmts

/-! ## The walk restores the namespace stack and never aborts -/

theorem collect_stack (rt : ReturnType) (sp : Span) (s : State) :
    (collect_fn_mutants rt sp s).namespaceStack = s.namespaceStack := rfl

theorem popCheck_of_stack (name : String) (s : State) (rest : List String)
    (h : s.namespaceStack = name :: rest) :
    popCheck name (.ok s) = .ok { s with namespaceStack := rest } := by
  simp [popCheck, h]

mutual
theorem visitItems_ok (l : ItemList) (s : State) :
    ∃ s', visitItems l s = .ok s' ∧ s'.namespaceStack = s.namespaceStack := by
  cases l with
  | nil => exact ⟨s, rfl, rfl⟩
  | cons i rest =>
    obtain ⟨s1, h1, hs1⟩ := visitItem_ok i s
    obtain ⟨s2, h2, hs2⟩ := visitItems_ok rest s1
    exact ⟨s2, by simp [visitItems, h1, h2], hs2.trans hs1⟩

theorem visitItem_ok (i : Item) (s : State) :
    ∃ s', visitItem i s = .ok s' ∧ s'.namespaceStack = s.namespaceStack := by
  cases i with
  | fn f => exact visitItemFn_ok f s
  | impl_ im => exact visitItemImpl_ok im s
  | mod_ m => exact visitItemMod_ok m s

theorem visitItemFn_ok (f : ItemFn) (s : State) :
    ∃ s', visitItemFn f s = .ok s' ∧ s'.namespaceStack = s.namespaceStack := by
  cases f with
  | mk attrs ident ar output block =>
    cases block with
    | mk sp stmts =>
      by_cases h : (attrs_excluded attrs || block_is_empty (.mk sp stmts)) = true
      · exact ⟨s, by simp [visitItemFn, h], rfl⟩
      · obtain ⟨s3, h3, hs3⟩ :=
          visitStmts_ok stmts (collect_fn_mutants output sp (pushNs (remove_excess_spaces ident) s))
        refine ⟨{ s3 with namespaceStack := s.namespaceStack }, ?_, rfl⟩
        simp only [visitItemFn, h, if_false, Bool.false_eq_true, h3]
        simp [popCheck, hs3, collect_fn_mutants, pushNs]

theorem visitImplItemMethod_ok (attrs : List Attribute) (ident : String) (ar : Nat)
    (output : ReturnType) (block : Block) (s : State) :
    ∃ s', visitImplItemMethod attrs ident ar output block s = .ok s' ∧
      s'.namespaceStack = s.namespaceStack := by
  cases block with
  | mk sp stmts =>
    by_cases h :
        (attrs_excluded attrs || ident == ("new" : String) || block_is_empty (.mk sp stmts)) = true
    · exact ⟨s, by simp [visitImplItemMethod, h], rfl⟩
    · obtain ⟨s3, h3, hs3⟩ :=
        visitStmts_ok stmts (collect_fn_mutants output sp (pushNs (remove_excess_spaces ident) s))
      refine ⟨{ s3 with namespaceStack := s.namespaceStack }, ?_, rfl⟩
      simp only [visitImplItemMethod, h, if_false, Bool.false_eq_true, h3]
      simp [popCheck, hs3, collect_fn_mutants, pushNs]

theorem visitItemImpl_ok (im : ItemImpl) (s : State) :
    ∃ s', visitItemImpl im s = .ok s' ∧ s'.namespaceStack = s.namespaceStack := by
  cases im with
  | mk attrs selfTy traitPath items =>
    by_cases h : attrs_excluded attrs = true
    · exact ⟨s, by simp [visitItemImpl, h], rfl⟩
    · cases traitPath with
      | none =>
        obtain ⟨s3, h3, hs3⟩ := visitImplItems_ok items (pushNs (type_name_string selfTy) s)
        refine ⟨{ s3 with namespaceStack := s.namespaceStack }, ?_, rfl⟩
        simp only [visitItemImpl, h, if_false, Bool.false_eq_true, h3]
        simp [popCheck, hs3, pushNs]
      | some trait_path =>
        by_cases hd :
            ((trait_path.segments.getLastD ⟨⟨[]⟩, false⟩).ident == ("Default" : String)) = true
        · refine ⟨s, ?_, rfl⟩
          have hd2 : (trait_path.segments.getLastD ⟨⟨[]⟩, false⟩).ident = ("Default" : String) :=
            by simpa using hd
          simp [visitItemImpl, h, hd2]
          intro hcon
          exact absurd (by simpa using hd2) hcon
        · obtain ⟨s3, h3, hs3⟩ := visitImplItems_ok items
            (pushNs (("<impl ") ++ (trait_path.segments.getLastD ⟨⟨[]⟩, false⟩).ident ++
              (" for ") ++ remove_excess_spaces (type_name_string selfTy) ++ (">")) s)
          refine ⟨{ s3 with namespaceStack := s.namespaceStack }, ?_, rfl⟩
          simp only [visitItemImpl, h, hd, if_false, Bool.false_eq_true, h3]
          simp [popCheck, hs3, pushNs]

theorem visitItemMod_ok (m : ItemMod) (s : State) :
    ∃ s', visitItemMod m s = .ok s' ∧ s'.namespaceStack = s.namespaceStack := by
  cases m with
  | mk attrs ident content =>
    by_cases h : attrs_excluded attrs = true
    · exact ⟨s, by simp [visitItemMod, h], rfl⟩
    · obtain ⟨s3, h3, hs3⟩ := visitModContent_ok content (pushNs ident s)
      refine ⟨{ s3 with namespaceStack := s.namespaceStack }, ?_, rfl⟩
      simp only [visitItemMod, h, if_false, Bool.false_eq_true, h3]
      simp [popCheck, hs3, pushNs]

theorem visitModContent_ok (content : ModContent) (s : State) :
    ∃ s', visitModContent content s = .ok s' ∧ s'.namespaceStack = s.namespaceStack := by
  cases content with
  | noBody => exact ⟨s, rfl, rfl⟩
  | body items =>
    obtain ⟨s1, h1, hs1⟩ := visitItems_ok items s
    exact ⟨s1, by simp [visitModContent, h1], hs1⟩

theorem visitImplItems_ok (l : ImplItemList) (s : State) :
    ∃ s', visitImplItems l s = .ok s' ∧ s'.namespaceStack = s.namespaceStack := by
  cases l with
  | nil => exact ⟨s, rfl, rfl⟩
  | cons i rest =>
    obtain ⟨s1, h1, hs1⟩ := visitImplItem_ok i s
    obtain ⟨s2, h2, hs2⟩ := visitImplItems_ok rest s1
    exact ⟨s2, by simp [visitImplItems, h1, h2], hs2.trans hs1⟩

theorem visitImplItem_ok (i : ImplItem) (s : State) :
    ∃ s', visitImplItem i s = .ok s' ∧ s'.namespaceStack = s.namespaceStack := by
  cases i with
  | method attrs ident ar output block => exact visitImplItemMethod_ok attrs ident ar output block s
  | otherImplItem => exact ⟨s, rfl, rfl⟩

theorem visitStmts_ok (l : StmtList) (s : State) :
    ∃ s', visitStmts l s = .ok s' ∧ s'.namespaceStack = s.namespaceStack := by
  cases l with
  | nil => exact ⟨s, rfl, rfl⟩
  | cons st rest =>
    obtain ⟨s1, h1, hs1⟩ := visitStmt_ok st s
    obtain ⟨s2, h2, hs2⟩ := visitStmts_ok rest s1
    exact ⟨s2, by simp [visitStmts, h1, h2], hs2.trans hs1⟩

theorem visitStmt_ok (st : Stmt) (s : State) :
    ∃ s', visitStmt st s = .ok s' ∧ s'.namespaceStack = s.namespaceStack := by
  cases st with
  | item i => exact visitItem_ok i s
  | otherStmt => exact ⟨s, rfl, rfl⟩
end

/-- Walking the concatenation of two item lists is walking the first and then
the second from the resulting state. -/
theorem visitItems_append (xs ys : ItemList) (s : State) :
    visitItems (xs.append ys) s =
      match visitItems xs s with
      | .error e => .error e
      | .ok s1 => visitItems ys s1 := by
  cases xs with
  | nil => simp [ItemList.append, visitItems]
  | cons i rest =>
    simp only [ItemList.append, visitItems]
    cases h1 : visitItem i s with
    | error e => rfl
    | ok s1 => exact visitItems_append rest ys s1

/-! ## The checked walk agrees with the total walk on meta-wellformed trees -/

theorem attr_is_cfg_test_checked_eq (attr : Attribute) (h : attr_cfg_meta_ok attr = true) :
    attr_is_cfg_test_checked attr = .ok (attr_is_cfg_test attr) := by
  obtain ⟨p, m⟩ := attr
  by_cases hp : p.is_ident ("cfg") = true
  · cases m with
    | list nested => simp [attr_is_cfg_test_checked, attr_is_cfg_test, hp]
    | otherMeta => simp [attr_is_cfg_test_checked, attr_is_cfg_test, hp]
    | malformed =>
      exfalso
      simp [attr_cfg_meta_ok, hp] at h
  · simp [attr_is_cfg_test_checked, attr_is_cfg_test, hp]

theorem attrs_excluded_checked_eq (attrs : List Attribute)
    (h : attrs.all attr_cfg_meta_ok = true) :
    attrs_excluded_checked attrs = .ok (attrs_excluded attrs) := by
  induction attrs with
  | nil => rfl
  | cons attr rest ih =>
    rw [List.all_cons, Bool.and_eq_true] at h
    rw [attrs_excluded_checked, attr_is_cfg_test_checked_eq attr h.1]
    cases hc : (attr_is_cfg_test attr || attr_is_test attr || attr_is_mutants_skip attr) with
    | true => simp [hc, attrs_excluded, List.any_cons]
    | false => simp [hc, attrs_excluded, List.any_cons, ih h.2, attrs_excluded]

mutual
theorem visitItemsChecked_eq (l : ItemList) (h : itemsMetasOk l = true) :
    ∀ s, visitItemsChecked l s = visitItems l s := by
  cases l with
  | nil => intro s; rfl
  | cons i rest =>
    rw [itemsMetasOk, Bool.and_eq_true] at h
    intro s
    rw [visitItemsChecked, visitItems, visitItemChecked_eq i h.1 s]
    cases visitItem i s with
    | error e => rfl
    | ok s1 => exact visitItemsChecked_eq rest h.2 s1

theorem visitItemChecked_eq (i : Item) (h : itemMetasOk i = true) :
    ∀ s, visitItemChecked i s = visitItem i s := by
  cases i with
  | fn f =>
    intro s
    rw [visitItemChecked, visitItem, visitItemFnChecked_eq f (by rw [itemMetasOk] at h; exact h) s]
  | impl_ im =>
    intro s
    rw [visitItemChecked, visitItem,
      visitItemImplChecked_eq im (by rw [itemMetasOk] at h; exact h) s]
  | mod_ m =>
    intro s
    rw [visitItemChecked, visitItem,
      visitItemModChecked_eq m (by rw [itemMetasOk] at h; exact h) s]

theorem visitItemFnChecked_eq (f : ItemFn) (h : itemFnMetasOk f = true) :
    ∀ s, visitItemFnChecked f s = visitItemFn f s := by
  cases f with
  | mk attrs ident ar output block =>
    cases block with
    | mk sp stmts =>
      rw [itemFnMetasOk, Bool.and_eq_true] at h
      intro s
      rw [visitItemFnChecked, visitItemFn, attrs_excluded_checked_eq attrs h.1]
      simp [visitStmtsChecked_eq stmts h.2]

theorem visitImplItemMethodChecked_eq (attrs : List Attribute) (ident : String) (ar : Nat)
    (output : ReturnType) (block : Block)
    (ha : attrs.all attr_cfg_meta_ok = true) (hb : blockStmtsOkOf block = true) :
    ∀ s, visitImplItemMethodChecked attrs ident ar output block s =
      visitImplItemMethod attrs ident ar output block s := by
  cases block with
  | mk sp stmts =>
    rw [blockStmtsOkOf] at hb
    intro s
    rw [visitImplItemMethodChecked, visitImplItemMethod, attrs_excluded_checked_eq attrs ha]
    simp [visitStmtsChecked_eq stmts hb]

theorem visitItemImplChecked_eq (im : ItemImpl) (h : itemImplMetasOk im = true) :
    ∀ s, visitItemImplChecked im s = visitItemImpl im s := by
  cases im with
  | mk attrs selfTy traitPath items =>
    rw [itemImplMetasOk, Bool.and_eq_true] at h
    intro s
    rw [visitItemImplChecked, visitItemImpl, attrs_excluded_checked_eq attrs h.1]
    cases traitPath with
    | none => simp [visitImplItemsChecked_eq items h.2]
    | some tp => simp [visitImplItemsChecked_eq items h.2]

theorem visitItemModChecked_eq (m : ItemMod) (h : itemModMetasOk m = true) :
    ∀ s, visitItemModChecked m s = visitItemMod m s := by
  cases m with
  | mk attrs ident content =>
    rw [itemModMetasOk, Bool.and_eq_true] at h
    intro s
    rw [visitItemModChecked, visitItemMod, attrs_excluded_checked_eq attrs h.1]
    simp [visitModContentChecked_eq content h.2]

theorem visitModContentChecked_eq (content : ModContent) (h : modContentMetasOk content = true) :
    ∀ s, visitModContentChecked content s = visitModContent content s := by
  cases content with
  | noBody => intro s; rfl
  | body items =>
    intro s
    rw [visitModContentChecked, visitModContent,
      visitItemsChecked_eq items (by rw [modContentMetasOk] at h; exact h) s]

theorem visitImplItemsChecked_eq (l : ImplItemList) (h : implItemsMetasOk l = true) :
    ∀ s, visitImplItemsChecked l s = visitImplItems l s := by
  cases l with
  | nil => intro s; rfl
  | cons i rest =>
    rw [implItemsMetasOk, Bool.and_eq_true] at h
    intro s
    rw [visitImplItemsChecked, visitImplItems, visitImplItemChecked_eq i h.1 s]
    cases visitImplItem i s with
    | error e => rfl
    | ok s1 => exact visitImplItemsChecked_eq rest h.2 s1

theorem visitImplItemChecked_eq (i : ImplItem) (h : implItemMetasOk i = true) :
    ∀ s, visitImplItemChecked i s = visitImplItem i s := by
  cases i with
  | method attrs ident arity output block =>
    cases block with
    | mk sp stmts =>
      rw [implItemMetasOk, Bool.and_eq_true] at h
      intro s
      rw [visitImplItemChecked, visitImplItem,
        visitImplItemMethodChecked_eq attrs ident arity output (.mk sp stmts) h.1
          (by rw [blockStmtsOkOf]; exact h.2) s]
  | otherImplItem => intro s; rfl

theorem visitStmtsChecked_eq (l : StmtList) (h : stmtsMetasOk l = true) :
    ∀ s, visitStmtsChecked l s = visitStmts l s := by
  cases l with
  | nil => intro s; rfl
  | cons st rest =>
    rw [stmtsMetasOk, Bool.and_eq_true] at h
    intro s
    rw [visitStmtsChecked, visitStmts, visitStmtChecked_eq st h.1 s]
    cases visitStmt st s with
    | error e => rfl
    | ok s1 => exact visitStmtsChecked_eq rest h.2 s1

theorem visitStmtChecked_eq (st : Stmt) (h : stmtMetasOk st = true) :
    ∀ s, visitStmtChecked st s = visitStmt st s := by
  cases st with
  | item i =>
    intro s
    rw [visitStmtChecked, visitStmt, visitItemChecked_eq i (by rw [stmtMetasOk] at h; exact h) s]
  | otherStmt => intro s; rfl
end

/-! ## Normalizer: the zipper agrees with the index-walking loop -/

theorem eraseIdx_append_len (l₁ l₂ : List Char) :
    (l₁ ++ l₂).eraseIdx l₁.length = l₁ ++ l₂.eraseIdx 0 := by
  induction l₁ with
  | nil => rfl
  | cons a rest ih => simpa [List.eraseIdx] using ih

theorem reverse_getD_last (d : List Char) (x : Char) (hd : d ≠ []) :
    d.reverse.getD (d.length - 1) x = d.headD x := by
  cases d with
  | nil => exact absurd rfl hd
  | cons h0 t =>
    have : (h0 :: t).reverse = t.reverse ++ [h0] := by simp
    rw [this]
    have hlen : t.reverse.length ≤ (h0 :: t).length - 1 := by simp
    rw [List.getD_append_right t.reverse [h0] x ((h0 :: t).length - 1) hlen]
    simp

theorem res_zip_eq_loop (rem : List Char) : ∀ (d : List Char), d ≠ [] →
    res_zip d rem = remove_excess_spaces_loop (d.reverse ++ rem) d.length := by
  match rem with
  | [] =>
    intro d hd
    have hguard : ¬ (d.length + 1 < (d.reverse ++ ([] : List Char)).length) := by simp
    rw [remove_excess_spaces_loop, dif_neg hguard]
    simp [res_zip]
  | [x] =>
    intro d hd
    have hguard : ¬ (d.length + 1 < (d.reverse ++ [x]).length) := by simp
    rw [remove_excess_spaces_loop, dif_neg hguard]
    simp [res_zip]
  | cur :: next :: rest =>
    intro d hd
    have hguard : d.length + 1 < (d.reverse ++ (cur :: next :: rest)).length := by
      simp
    have hrevlen : d.reverse.length = d.length := by simp
    have hcur : (d.reverse ++ (cur :: next :: rest)).getD d.length ' ' = cur := by
      rw [List.getD_append_right d.reverse _ ' ' d.length (le_of_eq hrevlen)]
      simp [hrevlen]
    have hnext : (d.reverse ++ (cur :: next :: rest)).getD (d.length + 1) ' ' = next := by
      rw [List.getD_append_right d.reverse _ ' ' (d.length + 1) (by omega)]
      simp [hrevlen]
    have hprev : (d.reverse ++ (cur :: next :: rest)).getD (d.length - 1) ' ' = d.headD ' ' := by
      have hlt : d.length - 1 < d.reverse.length := by
        rw [hrevlen]
        cases d with
        | nil => exact absurd rfl hd
        | cons a t => simp
      rw [List.getD_append d.reverse _ ' ' (d.length - 1) hlt]
      exact reverse_getD_last d ' ' hd
    have hshift : d.reverse ++ (cur :: next :: rest) = (cur :: d).reverse ++ (next :: rest) := by
      simp
    rw [remove_excess_spaces_loop, dif_pos hguard, hcur, hprev, hnext]
    by_cases hsp : cur = ' '
    · by_cases hdel : del_cond (d.headD ' ') next = true
      · rw [if_pos hsp, if_pos hdel]
        have herase : (d.reverse ++ (cur :: next :: rest)).eraseIdx d.length =
            d.reverse ++ (next :: rest) := by
          rw [← hrevlen, eraseIdx_append_len]
          rfl
        rw [herase, ← res_zip_eq_loop (next :: rest) d hd]
        have hc : (cur = ' ' && del_cond (d.headD ' ') next) = true := by
          rw [hsp, hdel]
          simp
        rw [res_zip, if_pos hc]
      · rw [if_pos hsp, if_neg hdel, hshift]
        have hlen2 : d.length + 1 = (cur :: d).length := by simp
        rw [hlen2, ← res_zip_eq_loop (next :: rest) (cur :: d) (List.cons_ne_nil cur d)]
        have hdelf : del_cond (d.headD ' ') next = false := by
          revert hdel
          cases del_cond (d.headD ' ') next <;> simp
        have hc : ¬ ((cur = ' ' && del_cond (d.headD ' ') next) = true) := by
          rw [hdelf]
          simp
        rw [res_zip, if_neg hc]
    · rw [if_neg hsp, hshift]
      have hlen2 : d.length + 1 = (cur :: d).length := by simp
      rw [hlen2, ← res_zip_eq_loop (next :: rest) (cur :: d) (List.cons_ne_nil cur d)]
      have hc : ¬ ((cur = ' ' && del_cond (d.headD ' ') next) = true) := by
        simp [hsp]
      rw [res_zip, if_neg hc]

/-- Function `remove_excess_spaces` is the index-walking `while` loop of the source,
started at index 1 over the string's characters. -/
theorem remove_excess_spaces_eq_loop (s : String) :
    remove_excess_spaces s = ⟨remove_excess_spaces_loop s.data 1⟩ := by
  cases s with
  | mk data =>
    cases data with
    | nil =>
      have : ¬ (1 + 1 < ([] : List Char).length) := by simp
      simp [remove_excess_spaces, remove_excess_spaces_loop, this]
    | cons c0 rest =>
      have h := res_zip_eq_loop rest [c0] (List.cons_ne_nil c0 [])
      simp only [List.reverse_cons, List.reverse_nil, List.nil_append, List.length_cons,
        List.length_nil, List.singleton_append] at h
      simp [remove_excess_spaces, h]

/-! ## Normalizer: structural behavior (deletion-only, boundary preservation) -/

theorem res_zip_structure (rem : List Char) : ∀ (d : List Char),
    ∃ t, res_zip d rem = d.reverse ++ t ∧
      List.Sublist t rem ∧
      t.filter (fun ch => ch != ' ') = rem.filter (fun ch => ch != ' ') ∧
      (rem ≠ [] → t ≠ [] ∧ t.getLast? = rem.getLast?) := by
  match rem with
  | [] => exact fun d => ⟨[], by simp [res_zip], by simp, rfl, fun h => absurd rfl h⟩
  | [x] =>
    exact fun d => ⟨[x], by simp [res_zip], by simp, rfl,
      fun _ => ⟨List.cons_ne_nil x [], rfl⟩⟩
  | cur :: next :: rest =>
    intro d
    by_cases hcond : (cur = ' ' && del_cond (d.headD ' ') next) = true
    · obtain ⟨t, ht, hsub, hfil, hlast⟩ := res_zip_structure (next :: rest) d
      have hsp : cur = ' ' := by
        have := hcond
        simp only [Bool.and_eq_true, decide_eq_true_eq] at this
        exact this.1
      refine ⟨t, ?_, ?_, ?_, ?_⟩
      · rw [res_zip, if_pos hcond]
        exact ht
      · exact hsub.cons cur
      · rw [hfil, hsp]
        simp [List.filter_cons]
      · intro _
        obtain ⟨htne, hlq⟩ := hlast (List.cons_ne_nil next rest)
        exact ⟨htne, hlq.trans List.getLast?_cons_cons.symm⟩
    · obtain ⟨t, ht, hsub, hfil, hlast⟩ := res_zip_structure (next :: rest) (cur :: d)
      obtain ⟨htne, hlq⟩ := hlast (List.cons_ne_nil next rest)
      refine ⟨cur :: t, ?_, hsub.cons₂ cur, ?_, ?_⟩
      · rw [res_zip, if_neg hcond, ht]
        simp
      · simp [List.filter_cons, hfil]
      · intro _
        refine ⟨List.cons_ne_nil cur t, ?_⟩
        cases t with
        | nil => exact absurd rfl htne
        | cons t0 ts => exact List.getLast?_cons_cons.trans (hlq.trans List.getLast?_cons_cons.symm)

/-- Strings without spaces are fixed points of the normalizer (only space
characters are ever deleted). -/
theorem res_zip_no_space (rem : List Char) : ∀ (d : List Char),
    (∀ ch ∈ rem, ch ≠ ' ') → res_zip d rem = d.reverse ++ rem := by
  match rem with
  | [] => intro d _; simp [res_zip]
  | [x] => intro d _; simp [res_zip]
  | cur :: next :: rest =>
    intro d hns
    have hsp : cur ≠ ' ' := hns cur (by simp)
    have hcond : ¬ ((cur = ' ' && del_cond (d.headD ' ') next) = true) := by
      simp [hsp]
    rw [res_zip, if_neg hcond]
    have hrec := res_zip_no_space (next :: rest) (cur :: d)
      (fun ch h => hns ch (List.mem_cons_of_mem cur h))
    rw [hrec]
    simp

/-- Strings without spaces pass through `remove_excess_spaces` unchanged. -/
theorem remove_excess_spaces_no_space (s : String) (h : ∀ ch ∈ s.data, ch ≠ ' ') :
    remove_excess_spaces s = s := by
  cases s with
  | mk data =>
    cases data with
    | nil => rfl
    | cons c0 rest =>
      have hz := res_zip_no_space rest [c0] (fun ch hm => h ch (List.mem_cons_of_mem c0 hm))
      simp [remove_excess_spaces, hz]

/-- Two different identifiers cannot both be the single segment of a path. -/
theorem is_ident_unique (p : Path) (a b : String) (hab : a ≠ b) (ha : p.is_ident a = true) :
    p.is_ident b = false := by
  obtain ⟨lc, segs⟩ := p
  cases segs with
  | nil => simp [Path.is_ident] at ha
  | cons seg rest =>
    cases rest with
    | cons x xs => simp [Path.is_ident] at ha
    | nil =>
      simp only [Path.is_ident, Bool.and_eq_true, Bool.not_eq_true', beq_iff_eq] at ha
      obtain ⟨h1, h2, h3⟩ := ha
      simp [Path.is_ident, h1, h2, h3, hab]

/-- A path whose last segment is `Result` is not a bare single identifier
other than `Result`. -/
theorem path_is_result_not_ident (p : Path) (a : String) (ha : a ≠ ("Result" : String))
    (h : path_is_result p = true) : p.is_ident a = false := by
  obtain ⟨lc, segs⟩ := p
  cases segs with
  | nil => simp [path_is_result] at h
  | cons seg rest =>
    cases rest with
    | cons s2 r2 => simp [Path.is_ident]
    | nil =>
      simp only [path_is_result, List.getLast?_singleton, Option.map_some', Option.getD_some,
        beq_iff_eq] at h
      have hr : ("Result" : String) ≠ a := fun hh => ha hh.symm
      simp [Path.is_ident, h, hr]

/-! ## Fixtures used by witnesses -/

def boolPath : Path := ⟨false, [⟨("bool"), false⟩]⟩

def stringPath : Path := ⟨false, [⟨("String"), false⟩]⟩

def vecU32Path : Path := ⟨false, [⟨("Vec"), true⟩]⟩

def resultPath : Path := ⟨false, [⟨("Result"), true⟩]⟩

def fooPath : Path := ⟨false, [⟨("Foo"), false⟩]⟩

def cfg_test_attr : Attribute :=
  ⟨⟨false, [⟨("cfg"), false⟩]⟩, .list [.metaPath ⟨false, [⟨("test"), false⟩]⟩]⟩

def inner_plain_fn : ItemFn :=
  .mk [] ("inner") 0 (.typ (.path boolPath ("bool"))) (.mk ⟨5, 6⟩ (.cons .otherStmt .nil))

def excluded_mod_item : Item :=
  .mod_ (.mk [cfg_test_attr] ("tests") (.body (.cons (.fn inner_plain_fn) .nil)))

def wit_state : State :=
  { mutants := [], source_file := { path := ("lib.rs"), code := .ok .nil },
    namespaceStack := [] }

/-! ## Claims -/

/-- C1: for every eligible function, the mutation ops selected depend only on
the syntactic shape of the declared return type: no declared return type gives
exactly `[Unit]`; a bare `bool` path gives `[True, False]` in that order; a
bare `String` path gives `[EmptyString, Xyzzy]`; any other single-path type
whose final segment is not `Result` gives exactly `[Default]`; and every other
return-type shape gives exactly `[Default]`. -/
theorem C1_ops_by_return_type_shape (p : Path) (r : String) :
    ops_for_return_type .default = [.unit]
    ∧ (p.is_ident ("bool") = true →
        ops_for_return_type (.typ (.path p r)) = [.true_, .false_])
    ∧ (p.is_ident ("String") = true →
        ops_for_return_type (.typ (.path p r)) = [.emptyString, .xyzzy])
    ∧ (p.is_ident ("bool") = false → p.is_ident ("String") = false →
        path_is_result p = false →
        ops_for_return_type (.typ (.path p r)) = [.default_])
    ∧ ops_for_return_type (.typ (.other r)) = [.default_] := by
  refine ⟨rfl, ?_, ?_, ?_, rfl⟩
  · intro h
    simp [ops_for_return_type, h]
  · intro h
    have hb : p.is_ident ("bool") = false :=
      is_ident_unique p ("String") ("bool") (by decide) h
    simp [ops_for_return_type, h, hb]
  · intro h1 h2 h3
    simp [ops_for_return_type, h1, h2, h3]

theorem C1_witness :
    ops_for_return_type (.typ (.path boolPath ("bool"))) = [.true_, .false_]
    ∧ ops_for_return_type (.typ (.path stringPath ("String"))) = [.emptyString, .xyzzy]
    ∧ ops_for_return_type (.typ (.path vecU32Path ("Vec < u32 >"))) = [.default_] :=
  ⟨(C1_ops_by_return_type_shape boolPath ("bool")).2.1 (by decide),
   (C1_ops_by_return_type_shape stringPath ("String")).2.2.1 (by decide),
   (C1_ops_by_return_type_shape vecU32Path ("Vec < u32 >")).2.2.2.1
     (by decide) (by decide) (by decide)⟩

/-- C2: for a function whose declared return type is a path whose last segment
is `Result`: with a configured error expression `x`, op selection yields
`OkDefault` then `ConfiguredError x`, in that order; with none, exactly
`[OkDefault]`.  (Modelled from the spec via
`ops_for_return_type_with_error`; with no configured expression that
definition coincides with the source's `ops_for_return_type`, which is the
third conjunct.) -/
theorem C2_configured_error_plumbing (p : Path) (r x : String)
    (h : path_is_result p = true) :
    ops_for_return_type_with_error (some x) (.typ (.path p r)) =
      [.okDefault, .configuredError x]
    ∧ ops_for_return_type_with_error none (.typ (.path p r)) = [.okDefault]
    ∧ (∀ rt : ReturnType, ops_for_return_type_with_error none rt = ops_for_return_type rt) := by
  have hb : p.is_ident ("bool") = false :=
    path_is_result_not_ident p ("bool") (by decide) h
  have hs : p.is_ident ("String") = false :=
    path_is_result_not_ident p ("String") (by decide) h
  refine ⟨?_, ?_, ?_⟩
  · simp [ops_for_return_type_with_error, hb, hs, h]
  · simp [ops_for_return_type_with_error, hb, hs, h]
  · intro rt
    cases rt with
    | default => rfl
    | typ t =>
      cases t with
      | other r2 => rfl
      | path p2 r2 =>
        simp only [ops_for_return_type_with_error, ops_for_return_type]
        split_ifs <;> simp

theorem C2_witness :
    ops_for_return_type_with_error (some ("anyhow!(mutant)"))
      (.typ (.path resultPath ("Result < u32 , String >"))) =
        [.okDefault, .configuredError ("anyhow!(mutant)")]
    ∧ ops_for_return_type_with_error none
      (.typ (.path resultPath ("Result < u32 , String >"))) = [.okDefault] :=
  ⟨(C2_configured_error_plumbing resultPath ("Result < u32 , String >") ("anyhow!(mutant)")
      (by decide)).1,
   (C2_configured_error_plumbing resultPath ("Result < u32 , String >") ("anyhow!(mutant)")
      (by decide)).2.1⟩

/-- The space-deletion rule exactly as claim C4 words it: a space is deleted
when the character immediately before or after it is one of `:`, `,`, `&`,
`<`, `>` (on either side).  Stated for comparison with the source's
`del_cond`, which checks `,` only after the space and `&` only before it. -/
def claimed_del_cond (a b : Char) : Bool :=
  (a == ':' || a == ',' || a == '&' || a == '<' || a == '>') ||
  (b == ':' || b == ',' || b == '&' || b == '<' || b == '>')

/-- The normalizer claim C4 describes: same left-to-right scan with
re-examination after deletion, but with the symmetric deletion rule. -/
def claimed_zip : List Char → List Char → List Char
  | done_rev, cur :: next :: rest =>
    if cur = ' ' && claimed_del_cond (done_rev.headD ' ') next then
      claimed_zip done_rev (next :: rest)
    else
      claimed_zip (cur :: done_rev) (next :: rest)
  | done_rev, rem => done_rev.reverse ++ rem

def claimed_normalize (type_str : String) : String :=
  match type_str.data with
  | [] => ⟨[]⟩
  | c0 :: rest => ⟨claimed_zip [c0] rest⟩

/-- C4 counterexample: the claimed symmetric deletion rule disagrees with the
source.  On `", a"` the character before the space is `,`, so the claimed rule
deletes the space; the source checks `,` only on the right of a space and
keeps the string unchanged.  On `"a & b"` the claimed rule deletes both spaces
(`&` on either side); the source deletes only the space after `&`. -/
theorem C4_counterexample :
    remove_excess_spaces (", a") = (", a")
    ∧ claimed_normalize (", a") = (",a")
    ∧ remove_excess_spaces ("a & b") = ("a &b")
    ∧ claimed_normalize ("a & b") = ("a&b") :=
  ⟨rfl, rfl, rfl, rfl⟩

/-- C4 amended: the normalizer scans left to right, re-examining the same
index after each deletion (first conjunct: it is the index-walking loop
started at 1), and deletes a space exactly when the character immediately
before it is one of `:`, `&`, `<`, `>` or the character immediately after it
is one of `:`, `,`, `<`, `>` (second conjunct characterizes the deletion
condition); in particular `"& 'static str"` normalizes to `"&'static str"`
and `"Vec < u32 >"` normalizes to `"Vec<u32>"`. -/
theorem C4_amended_normalizer_rule :
    (∀ s : String, remove_excess_spaces s = ⟨remove_excess_spaces_loop s.data 1⟩)
    ∧ (∀ a b : Char, del_cond a b =
        ((a == ':' || a == '&' || a == '<' || a == '>') ||
         (b == ':' || b == ',' || b == '<' || b == '>')))
    ∧ remove_excess_spaces ("& 'static str") = ("&'static str")
    ∧ remove_excess_spaces ("Vec < u32 >") = ("Vec<u32>") := by
  refine ⟨remove_excess_spaces_eq_loop, ?_, rfl, rfl⟩
  intro a b
  simp only [del_cond]
  generalize (a == (':' : Char)) = p1
  generalize (b == (':' : Char)) = p2
  generalize (b == ((',') : Char)) = p3
  generalize (a == (('&') : Char)) = p4
  generalize (a == (('<') : Char)) = p5
  generalize (b == (('<') : Char)) = p6
  generalize (a == (('>') : Char)) = p7
  generalize (b == (('>') : Char)) = p8
  revert p1 p2 p3 p4 p5 p6 p7 p8
  decide

/-- C7: every method in an impl block named `new` yields zero mutants,
regardless of attributes, arity, return type, body, and visitor state. -/
theorem C7_constructors_yield_no_mutants (attrs : List Attribute) (ar : Nat)
    (output : ReturnType) (block : Block) (s : State) :
    visitImplItem (.method attrs ("new") ar output block) s = .ok s := by
  cases block with
  | mk sp stmts => simp [visitImplItem, visitImplItemMethod]

/-- C10: the normalizer only deletes interior space characters: its output's
characters are a sublist of the input's (so length can only shrink), every
non-space character is kept in relative order, the first and last characters
are preserved, and inputs shorter than three characters are unchanged. -/
theorem C10_normalizer_deletion_only (s : String) :
    List.Sublist (remove_excess_spaces s).data s.data
    ∧ (remove_excess_spaces s).data.filter (fun ch => ch != ' ') =
        s.data.filter (fun ch => ch != ' ')
    ∧ (remove_excess_spaces s).data.head? = s.data.head?
    ∧ (remove_excess_spaces s).data.getLast? = s.data.getLast?
    ∧ (remove_excess_spaces s).length ≤ s.length
    ∧ (s.length < 3 → remove_excess_spaces s = s) := by
  cases s with
  | mk data =>
    cases data with
    | nil =>
      refine ⟨?_, ?_, ?_, ?_, ?_, fun _ => ?_⟩ <;> simp [remove_excess_spaces]
    | cons c0 rest =>
      obtain ⟨t, ht, hsub, hfil, hlast⟩ := res_zip_structure rest [c0]
      have hdata : (remove_excess_spaces ⟨c0 :: rest⟩).data = c0 :: t := by
        simp [remove_excess_spaces, ht]
      refine ⟨?_, ?_, ?_, ?_, ?_, ?_⟩
      · rw [hdata]
        exact hsub.cons₂ c0
      · rw [hdata]
        simp [List.filter_cons, hfil]
      · rw [hdata]
        simp
      · rw [hdata]
        cases rest with
        | nil =>
          have : t = [] := List.sublist_nil.mp hsub
          simp [this]
        | cons r0 rs =>
          obtain ⟨htne, hl⟩ := hlast (List.cons_ne_nil r0 rs)
          cases t with
          | nil => exact absurd rfl htne
          | cons t0 ts =>
            exact List.getLast?_cons_cons.trans (hl.trans List.getLast?_cons_cons.symm)
      · have h1 : (remove_excess_spaces ⟨c0 :: rest⟩).length =
            (remove_excess_spaces ⟨c0 :: rest⟩).data.length := rfl
        rw [h1, hdata]
        have := hsub.length_le
        simp only [String.length, List.length_cons]
        omega
      · intro hlen
        simp only [String.length, List.length_cons] at hlen
        cases rest with
        | nil => simp [remove_excess_spaces, res_zip]
        | cons r0 rs =>
          cases rs with
          | nil => simp [remove_excess_spaces, res_zip]
          | cons r1 rs2 =>
            simp only [List.length_cons] at hlen
            omega

theorem C10_witness :
    remove_excess_spaces ("ab") = ("ab")
    ∧ List.Sublist (remove_excess_spaces ("x: y")).data ("x: y").data :=
  ⟨(C10_normalizer_deletion_only ("ab")).2.2.2.2.2 (by decide),
   (C10_normalizer_deletion_only ("x: y")).1⟩

/-- C3: exclusion is transitive.  Visiting any item (function, impl, or
module) that carries an exclusion attribute (`#[cfg(test)]`, `#[test]`, or
`#[mutants::skip]`, i.e. `attrs_excluded`) leaves the state unchanged — so
everything nested inside it, at any depth, contributes zero mutants — and
removing such an item from an item list does not change the walk at all; the
same holds for an excluded method in an impl block. -/
theorem C3_exclusion_is_transitive :
    (∀ (i : Item) (s : State), attrs_excluded i.attrs = true → visitItem i s = .ok s)
    ∧ (∀ (pre post : ItemList) (i : Item) (s : State), attrs_excluded i.attrs = true →
        visitItems (pre.append (.cons i post)) s = visitItems (pre.append post) s)
    ∧ (∀ (attrs : List Attribute) (ident : String) (ar : Nat) (output : ReturnType)
        (block : Block) (s : State), attrs_excluded attrs = true →
        visitImplItem (.method attrs ident ar output block) s = .ok s) := by
  have hitem : ∀ (i : Item) (s : State), attrs_excluded i.attrs = true → visitItem i s = .ok s := by
    intro i s h
    cases i with
    | fn f =>
      cases f with
      | mk attrs ident ar output block =>
        cases block with
        | mk sp stmts =>
          simp only [Item.attrs] at h
          simp [visitItem, visitItemFn, h]
    | impl_ im =>
      cases im with
      | mk attrs selfTy traitPath items =>
        simp only [Item.attrs] at h
        simp [visitItem, visitItemImpl, h]
    | mod_ m =>
      cases m with
      | mk attrs ident content =>
        simp only [Item.attrs] at h
        simp [visitItem, visitItemMod, h]
  refine ⟨hitem, ?_, ?_⟩
  · intro pre post i s h
    rw [visitItems_append, visitItems_append]
    cases hx : visitItems pre s with
    | error e => rfl
    | ok s1 => simp [visitItems, hitem i s1 h]
  · intro attrs ident ar output block s h
    cases block with
    | mk sp stmts => simp [visitImplItem, visitImplItemMethod, h]

theorem C3_witness :
    attrs_excluded excluded_mod_item.attrs = true
    ∧ visitItem excluded_mod_item wit_state = .ok wit_state
    ∧ visitItems (ItemList.append .nil (.cons excluded_mod_item .nil)) wit_state =
        visitItems (ItemList.append .nil .nil) wit_state :=
  ⟨rfl,
   C3_exclusion_is_transitive.1 excluded_mod_item wit_state rfl,
   C3_exclusion_is_transitive.2.1 .nil .nil excluded_mod_item wit_state rfl⟩

/-- An attribute whose path is the single identifier `cfg` but whose tokens do
not parse as a meta — the shape syn gives `#[cfg(foo bar)]`, which is accepted
in a syntactically valid file. -/
def cfg_malformed_attr : Attribute := ⟨⟨false, [⟨("cfg"), false⟩]⟩, .malformed⟩

/-- A syntactically valid file (`#[cfg(foo bar)] fn f() { … }`): the parse
outcome is `.ok`, but the `cfg` attribute's tokens are not meta-parseable. -/
def sf_cfg_malformed : SourceFile :=
  { path := ("lib.rs"),
    code := .ok (.cons (.fn (.mk [cfg_malformed_attr] ("f") 0 .default
      (.mk ⟨1, 1⟩ (.cons .otherStmt .nil)))) .nil) }

/-- C6 counterexample: discovery can fail on a syntactically valid input.
`sf_cfg_malformed` parses (`.ok`), yet the walk reaches
`attr_is_cfg_test`'s `attr.parse_meta().unwrap()` on the `#[cfg(foo bar)]`
attribute and panics, so `discover_mutants` aborts instead of returning a
mutant sequence — refuting "on every syntactically valid input it returns a
(possibly empty) mutant sequence and never fails". -/
theorem C6_counterexample :
    (∃ f, sf_cfg_malformed.code = .ok f)
    ∧ discover_mutants_checked sf_cfg_malformed =
        .aborted
          ("attr_is_cfg_test: called unwrap on an Err value: attribute tokens do not parse as a meta") :=
  ⟨⟨_, rfl⟩, rfl⟩

/-- C6 amended: `discover_mutants` returns a structured parse error exactly
when the source text is not syntactically valid; on every syntactically valid
input in which every attribute with path `cfg` has meta-parseable tokens
(`itemsMetasOk`), it returns a (possibly empty) mutant sequence and never
fails — and on such trees the panic-propagating walk coincides with the total
one — with structurally surprising but valid return-type shapes falling
through to the generic `Default` op rather than erroring.  (A `cfg` attribute
whose tokens do not meta-parse instead panics discovery, per
`C6_counterexample`.) -/
theorem C6_amended_discovery_total_on_wellformed_metas (sf : SourceFile) :
    (∀ e, discover_mutants_checked sf = .parseError e ↔ sf.code = .error e)
    ∧ (∀ f, sf.code = .ok f → itemsMetasOk f = true →
        ∃ ms, discover_mutants_checked sf = .found ms ∧ discover_mutants sf = .found ms)
    ∧ (∀ f e, sf.code = .ok f → itemsMetasOk f = true →
        discover_mutants_checked sf ≠ .aborted e)
    ∧ (∀ r, ops_for_return_type (.typ (.other r)) = [.default_]) := by
  cases hc : sf.code with
  | error e0 =>
    refine ⟨?_, ?_, ?_, fun r => rfl⟩
    · intro e
      simp [discover_mutants_checked, hc]
    · intro f hf
      exact absurd hf (by simp)
    · intro f e hf
      exact absurd hf (by simp)
  | ok file =>
    have hfound : ∀ f, (Except.ok file : Except String File) = .ok f → itemsMetasOk f = true →
        discover_mutants_checked sf = .found
          (match visitItems file { mutants := [], source_file := sf, namespaceStack := [] } with
           | .error _ => []
           | .ok s' => s'.mutants) ∧
        discover_mutants sf = .found
          (match visitItems file { mutants := [], source_file := sf, namespaceStack := [] } with
           | .error _ => []
           | .ok s' => s'.mutants) := by
      intro f hf hwf
      have hff : f = file := by
        cases hf
        rfl
      rw [hff] at hwf
      obtain ⟨s', hs', _⟩ := visitItems_ok file
        { mutants := [], source_file := sf, namespaceStack := [] }
      have hagree := visitItemsChecked_eq file hwf
        { mutants := [], source_file := sf, namespaceStack := [] }
      constructor
      · simp [discover_mutants_checked, hc, hagree, hs']
      · simp [discover_mutants, hc, hs']
    refine ⟨?_, ?_, ?_, fun r => rfl⟩
    · intro e
      cases hv : visitItemsChecked file
          { mutants := [], source_file := sf, namespaceStack := [] } with
      | error e1 => simp [discover_mutants_checked, hc, hv]
      | ok s1 => simp [discover_mutants_checked, hc, hv]
    · intro f hf hwf
      exact ⟨_, hfound f hf hwf⟩
    · intro f e hf hwf
      rw [(hfound f hf hwf).1]
      simp

def sf_invalid : SourceFile := { path := ("bad.rs"), code := .error ("expected item") }

def sf_trivial : SourceFile := { path := ("lib.rs"), code := .ok (.cons (.fn inner_plain_fn) .nil) }

theorem C6_witness :
    (∃ ms, discover_mutants_checked sf_trivial = .found ms
      ∧ discover_mutants sf_trivial = .found ms)
    ∧ (discover_mutants_checked sf_invalid = .parseError ("expected item") ↔
        sf_invalid.code = .error ("expected item")) :=
  ⟨(C6_amended_discovery_total_on_wellformed_metas sf_trivial).2.1 _ rfl rfl,
   (C6_amended_discovery_total_on_wellformed_metas sf_invalid).1 ("expected item")⟩

/-- C8: the namespace stack is restored on exit from every scope: visiting any
item or impl item succeeds and returns the entry stack (whether the scope was
descended into or skipped); a push/pop mismatch at scope exit aborts the
discovery call with an error rather than returning a state; and from the empty
initial stack the whole walk ends with an empty stack. -/
theorem C8_namespace_stack_discipline :
    (∀ (i : Item) (s : State), ∃ s',
        visitItem i s = .ok s' ∧ s'.namespaceStack = s.namespaceStack)
    ∧ (∀ (ii : ImplItem) (s : State), ∃ s',
        visitImplItem ii s = .ok s' ∧ s'.namespaceStack = s.namespaceStack)
    ∧ (∀ (name : String) (s : State), (∀ rest, s.namespaceStack ≠ name :: rest) →
        ∃ e, popCheck name (.ok s) = .error e)
    ∧ (∀ (f : File) (sf : SourceFile), ∃ s',
        visitItems f { mutants := [], source_file := sf, namespaceStack := [] } = .ok s'
        ∧ s'.namespaceStack = []) := by
  refine ⟨visitItem_ok, visitImplItem_ok, ?_, ?_⟩
  · intro name s h
    cases hs : s.namespaceStack with
    | nil =>
      exact ⟨("in_namespace: called unwrap on an empty namespace stack"),
        by simp [popCheck, hs]⟩
    | cons top rest =>
      have hne : ¬ (top = name) := fun he => h rest (by rw [hs, he])
      exact ⟨("in_namespace: assertion failed, popped segment differs from pushed"),
        by simp [popCheck, hs, hne]⟩
  · intro f sf
    obtain ⟨s', h1, h2⟩ := visitItems_ok f
      { mutants := [], source_file := sf, namespaceStack := [] }
    exact ⟨s', h1, h2⟩

theorem C8_witness :
    (∃ e, popCheck ("ns") (.ok wit_state) = .error e)
    ∧ (∃ s', visitItems (.cons excluded_mod_item .nil)
        { mutants := [], source_file := sf_trivial, namespaceStack := [] } = .ok s'
        ∧ s'.namespaceStack = []) :=
  ⟨C8_namespace_stack_discipline.2.2.1 ("ns") wit_state
      (fun _rest h => List.noConfusion h),
   C8_namespace_stack_discipline.2.2.2 (.cons excluded_mod_item .nil) sf_trivial⟩

/-- C9: a free (non-impl) function named `new` is not excluded — with
non-excluding attributes and a non-empty body, visiting it emits exactly one
mutant per op selected from its return type, named by the `::`-join of the
stack and `new` — while a method named `new` in an impl block is skipped
whatever its arity. -/
theorem C9_free_fn_new_not_excluded (attrs : List Attribute) (ar : Nat)
    (output : ReturnType) (sp : Span) (s : State)
    (h : attrs_excluded attrs = false) :
    (visitItemFn (.mk attrs ("new") ar output (.mk sp (.cons .otherStmt .nil))) s = .ok
      { mutants := s.mutants ++ (ops_for_return_type output).map (fun op =>
          { source_file := s.source_file, op := op,
            function_name :=
              String.intercalate ("::") (s.namespaceStack.reverse ++ [("new" : String)]),
            return_type_str := return_type_to_string output, span := sp }),
        source_file := s.source_file, namespaceStack := s.namespaceStack })
    ∧ (∀ (attrs2 : List Attribute) (ar2 : Nat) (output2 : ReturnType) (block2 : Block)
        (s2 : State), visitImplItemMethod attrs2 ("new") ar2 output2 block2 s2 = .ok s2) := by
  constructor
  · have hnew : remove_excess_spaces ("new") = ("new") := rfl
    simp [visitItemFn, h, block_is_empty, hnew, visitStmts, visitStmt, popCheck, pushNs,
      collect_fn_mutants]
  · intro attrs2 ar2 output2 block2 s2
    cases block2 with
    | mk sp2 stmts2 => simp [visitImplItemMethod]

theorem C9_witness :
    visitItemFn (.mk [] ("new") 2 (.typ (.path boolPath ("bool")))
        (.mk ⟨7, 8⟩ (.cons .otherStmt .nil))) wit_state = .ok
      { mutants := [.true_, .false_].map (fun op =>
            { source_file := wit_state.source_file
              op := op
              function_name := String.intercalate ("::")
                  (wit_state.namespaceStack.reverse ++ [("new" : String)])
              return_type_str := return_type_to_string (.typ (.path boolPath ("bool")))
              span := ⟨7, 8⟩ })
        source_file := wit_state.source_file
        namespaceStack := wit_state.namespaceStack } :=
  (C9_free_fn_new_not_excluded [] 2 (.typ (.path boolPath ("bool"))) ⟨7, 8⟩ wit_state rfl).1

/-- A file of the shape `mod mName { impl [Trait for] SelfTy { fn barName } }`,
used to state the naming claim. -/
def file_mod_impl (mName : String) (selfTy : Typ) (traitPath : Option Path)
    (barName : String) (sp : Span) : File :=
  .cons (.mod_ (.mk [] mName (.body (.cons (.impl_ (.mk [] selfTy traitPath
    (.cons (.method [] barName 1 .default (.mk sp (.cons .otherStmt .nil))) .nil))) .nil)))) .nil

/-- C5: the fully-qualified name of every mutant is the `::`-join of the
namespace segments in scope where the function is visited: `bar` inside a
trait-less `impl SelfTy` inside `mod mName` is named
`mName::SelfTy::barName` (the impl contributes the bare rendered type), and
`bar` inside `impl Trait for SelfTy` inside `mod mName` is named
`mName::<impl Trait for SelfTy>::barName` (the trait-impl segment uses the
trait path's final segment and the rendered implementing type). -/
theorem C5_fully_qualified_names (mName barName traitIdent : String) (selfTy : Typ)
    (sp : Span) (sf1 sf2 : SourceFile)
    (hbar_ns : ∀ ch ∈ barName.data, ch ≠ ' ')
    (hbar_new : barName ≠ ("new" : String))
    (hfoo_ns : ∀ ch ∈ (type_name_string selfTy).data, ch ≠ ' ')
    (htrait : traitIdent ≠ ("Default" : String)) :
    (visitItems (file_mod_impl mName selfTy none barName sp)
        { mutants := [], source_file := sf1, namespaceStack := [] } = .ok
      { mutants := [{ source_file := sf1
                      op := .unit
                      function_name :=
                        mName ++ ("::") ++ type_name_string selfTy ++ ("::") ++ barName
                      return_type_str := ⟨[]⟩
                      span := sp }]
        source_file := sf1
        namespaceStack := [] })
    ∧ (visitItems (file_mod_impl mName selfTy (some ⟨false, [⟨traitIdent, false⟩]⟩) barName sp)
        { mutants := [], source_file := sf2, namespaceStack := [] } = .ok
      { mutants := [{ source_file := sf2
                      op := .unit
                      function_name :=
                        mName ++ ("::") ++ (("<impl ") ++ traitIdent ++ (" for ")
                          ++ type_name_string selfTy ++ (">")) ++ ("::") ++ barName
                      return_type_str := ⟨[]⟩
                      span := sp }]
        source_file := sf2
        namespaceStack := [] }) := by
  have hbarR : remove_excess_spaces barName = barName :=
    remove_excess_spaces_no_space _ hbar_ns
  have hfooR : remove_excess_spaces (type_name_string selfTy) = type_name_string selfTy :=
    remove_excess_spaces_no_space _ hfoo_ns
  have hbarNew : (barName == ("new" : String)) = false := by simp [hbar_new]
  have htraitB : (traitIdent == ("Default" : String)) = false := by simp [htrait]
  constructor
  · simp [file_mod_impl, visitItems, visitItem, visitItemMod, visitModContent,
      visitItemImpl, visitImplItems, visitImplItem, visitImplItemMethod, visitStmts, visitStmt,
      visitItemFn, attrs_excluded, block_is_empty, pushNs, popCheck, collect_fn_mutants,
      ops_for_return_type, return_type_to_string, hbarR, hbarNew,
      String.intercalate, String.intercalate.go]
  · simp [file_mod_impl, visitItems, visitItem, visitItemMod, visitModContent,
      visitItemImpl, visitImplItems, visitImplItem, visitImplItemMethod, visitStmts, visitStmt,
      visitItemFn, attrs_excluded, block_is_empty, pushNs, popCheck, collect_fn_mutants,
      ops_for_return_type, return_type_to_string, hbarR, hbarNew, hfooR, htraitB,
      String.intercalate, String.intercalate.go]

theorem C5_witness :
    visitItems (file_mod_impl ("m") (.path fooPath ("Foo"))
        (some ⟨false, [⟨("Trait"), false⟩]⟩) ("bar") ⟨4, 5⟩)
      { mutants := [], source_file := sf_trivial, namespaceStack := [] } = .ok
      { mutants := [{ source_file := sf_trivial
                      op := .unit
                      function_name := ("m::<impl Trait for Foo>::bar")
                      return_type_str := ⟨[]⟩
                      span := ⟨4, 5⟩ }]
        source_file := sf_trivial
        namespaceStack := [] } :=
  (C5_fully_qualified_names ("m") ("bar") ("Trait") (.path fooPath ("Foo")) ⟨4, 5⟩
    sf_trivial sf_trivial (by decide) (by decide) (by decide) (by decide)).2

end CargoMutants

